import Mathlib

/-!
Shallow embedding of the pool/power correlation engine of the
powervoting-dataviz-interface repository.

The embedded code lives in `src/stores/dataStore.ts` (statistics,
distribution bins, pool analysis, address pool profiles, pool/power
correlation) and in the analysis view (`analyzePoolPositions`,
`searchAddressAcrossSnapshots`).

Modelling conventions:
* A JavaScript number is modelled as `Option ℚ`: `some q` is the finite
  number `q` (idealised, no floating point rounding) and `none` is `NaN`.
  Non-finite parse results (`Infinity`) are also mapped to `none`.
* Raw record fields of type `string | number | undefined` are modelled by
  the inductive `RawVal`; JavaScript truthiness and the `||` operator are
  modelled on it.
* `parseFloat(String(v))` is modelled by `parseFloatVal` with a faithful
  leading-prefix decimal parser (sign, digits, fraction, exponent).
* `Array.prototype.sort(cmp)` (a stable comparator sort) is modelled by a
  stable insertion sort `jsSortBy le` where `le a b` means
  `cmp(a, b) <= 0`.
-/

namespace PVD

/-- Model of a JavaScript number: `some q` is a finite value, `none` is NaN. -/
abbrev JsNum := Option ℚ

/-- JavaScript addition: NaN propagates. -/
def jsAdd (a b : JsNum) : JsNum :=
  match a, b with
  | some x, some y => some (x + y)
  | _, _ => none

/-- JavaScript subtraction: NaN propagates. -/
def jsSub (a b : JsNum) : JsNum :=
  match a, b with
  | some x, some y => some (x - y)
  | _, _ => none

/-- JavaScript multiplication: NaN propagates. -/
def jsMul (a b : JsNum) : JsNum :=
  match a, b with
  | some x, some y => some (x * y)
  | _, _ => none

/-- JavaScript division (used only with nonzero divisors in the source);
NaN propagates. -/
def jsDiv (a b : JsNum) : JsNum :=
  match a, b with
  | some x, some y => some (x / y)
  | _, _ => none

/-- Math.max on two numbers: NaN propagates. -/
def jsMax (a b : JsNum) : JsNum :=
  match a, b with
  | some x, some y => some (max x y)
  | _, _ => none

/-- Math.min on two numbers: NaN propagates. -/
def jsMin (a b : JsNum) : JsNum :=
  match a, b with
  | some x, some y => some (min x y)
  | _, _ => none

/-- JavaScript comparison `a <= b`: any comparison with NaN is false. -/
def jsLe (a b : JsNum) : Bool :=
  match a, b with
  | some x, some y => decide (x ≤ y)
  | _, _ => false

/-- JavaScript comparison `a < b`: any comparison with NaN is false. -/
def jsLt (a b : JsNum) : Bool :=
  match a, b with
  | some x, some y => decide (x < y)
  | _, _ => false

/-- JavaScript `x || 0` applied to a number: NaN (and 0) collapse to 0. -/
def jsNumOr0 (a : JsNum) : ℚ :=
  match a with
  | some x => x
  | none => 0

/-- A raw record field: a number, a string, or absent (undefined/null). -/
inductive RawVal where
  | num (q : ℚ)
  | str (s : String)
  | absent
deriving DecidableEq, Repr

/-- JavaScript truthiness of a raw field value (0, the empty string and
undefined are falsy). -/
def truthy : RawVal → Bool
  | .num q => decide (q ≠ 0)
  | .str s => decide (s ≠ "")
  | .absent => false

/-- JavaScript `a || b` on raw field values. -/
def jsOr (a b : RawVal) : RawVal :=
  if truthy a then a else b

/-- Numeric value of a digit list, most significant first. -/
def digitsVal (cs : List Char) : ℕ :=
  cs.foldl (fun n c => 10 * n + (c.toNat - '0'.toNat)) 0

/-- Model of JavaScript `parseFloat`: skip leading whitespace, parse an
optional sign, an integer part, an optional fraction and an optional
exponent, ignoring any trailing junk; yield NaN (`none`) when no digit is
found. -/
def jsParseFloat (s : String) : JsNum :=
  let cs := s.data.dropWhile fun c => c == ' ' || c == '\t' || c == '\n' || c == '\r'
  let signRest : ℚ × List Char :=
    match cs with
    | '-' :: r => (-1, r)
    | '+' :: r => (1, r)
    | _ => (1, cs)
  let ip := signRest.2.takeWhile Char.isDigit
  let cs2 := signRest.2.dropWhile Char.isDigit
  let fracRest : List Char × List Char :=
    match cs2 with
    | '.' :: r => (r.takeWhile Char.isDigit, r.dropWhile Char.isDigit)
    | _ => ([], cs2)
  if ip.isEmpty && fracRest.1.isEmpty then none
  else
    let mant : ℚ := (digitsVal ip : ℚ) + (digitsVal fracRest.1 : ℚ) / ((10 : ℚ) ^ fracRest.1.length)
    let ex : ℤ :=
      match fracRest.2 with
      | c :: r =>
        if c == 'e' || c == 'E' then
          let expRest : ℤ × List Char :=
            match r with
            | '-' :: r2 => (-1, r2)
            | '+' :: r2 => (1, r2)
            | _ => (1, r)
          let ed := expRest.2.takeWhile Char.isDigit
          if ed.isEmpty then 0 else expRest.1 * (digitsVal ed : ℤ)
        else 0
      | [] => 0
    some (signRest.1 * mant * (10 : ℚ) ^ ex)

/-- Model of `parseFloat(String(v))` on a raw field value.  A finite number
round-trips through its decimal representation; `String(undefined)` is
`"undefined"`, which parses to NaN. -/
def parseFloatVal : RawVal → JsNum
  | .num q => some q
  | .str s => jsParseFloat s
  | .absent => none

/-- Lower-case a string character by character (models `toLowerCase` on the
hex-like addresses appearing in the data). -/
def lcString (s : String) : String :=
  ⟨s.data.map Char.toLower⟩

/-- Stable insertion step: insert `x` into `l`, placing it before the first
element `y` with `le x y`. -/
def jsInsert (le : α → α → Bool) (x : α) : List α → List α
  | [] => [x]
  | y :: ys => if le x y then x :: y :: ys else y :: jsInsert le x ys

/-- Stable comparator sort, modelling `Array.prototype.sort(cmp)` where
`le a b` stands for `cmp(a, b) <= 0`. -/
def jsSortBy (le : α → α → Bool) (l : List α) : List α :=
  l.foldr (jsInsert le) []

theorem jsInsert_perm (le : α → α → Bool) (x : α) :
    ∀ l : List α, (jsInsert le x l).Perm (x :: l)
  | [] => by simp [jsInsert]
  | y :: ys => by
    rw [jsInsert]
    split
    · exact .refl _
    · exact .trans (.cons y (jsInsert_perm le x ys)) (.swap x y ys)

theorem jsSortBy_perm (le : α → α → Bool) :
    ∀ l : List α, (jsSortBy le l).Perm l
  | [] => .refl _
  | x :: xs =>
    .trans (jsInsert_perm le x (jsSortBy le xs)) (.cons x (jsSortBy_perm le xs))

theorem mem_jsSortBy {le : α → α → Bool} {l : List α} {a : α} :
    a ∈ jsSortBy le l ↔ a ∈ l :=
  (jsSortBy_perm le l).mem_iff

theorem mem_jsInsert {le : α → α → Bool} {l : List α} {x a : α} :
    a ∈ jsInsert le x l ↔ a = x ∨ a ∈ l := by
  rw [(jsInsert_perm le x l).mem_iff, List.mem_cons]

theorem pairwise_jsInsert (le : α → α → Bool) (x : α) :
    ∀ l : List α,
      (∀ b ∈ l, le x b = true ∨ le b x = true) →
      (∀ b ∈ l, ∀ c ∈ l, le x b = true → le b c = true → le x c = true) →
      l.Pairwise (fun a b => le a b = true) →
      (jsInsert le x l).Pairwise (fun a b => le a b = true)
  | [], _, _, _ => by simp [jsInsert]
  | y :: ys, htot, htrans, hl => by
    rw [List.pairwise_cons] at hl
    rw [jsInsert]
    by_cases hxy : le x y = true
    · rw [if_pos hxy]
      refine List.pairwise_cons.2 ⟨?_, List.pairwise_cons.2 ⟨hl.1, hl.2⟩⟩
      intro b hb
      rcases List.mem_cons.1 hb with rfl | hb
      · exact hxy
      · exact htrans y (by simp) b (by simp [hb]) hxy (hl.1 b hb)
    · rw [if_neg hxy]
      refine List.pairwise_cons.2 ⟨?_, ?_⟩
      · intro b hb
        rcases mem_jsInsert.1 hb with rfl | hb
        · rcases htot y (by simp) with h | h
          · exact absurd h hxy
          · exact h
        · exact hl.1 b hb
      · exact pairwise_jsInsert le x ys
          (fun b hb => htot b (by simp [hb]))
          (fun b hb c hc => htrans b (by simp [hb]) c (by simp [hc]))
          hl.2

theorem pairwise_jsSortBy (le : α → α → Bool) :
    ∀ l : List α,
      (∀ a ∈ l, ∀ b ∈ l, le a b = true ∨ le b a = true) →
      (∀ a ∈ l, ∀ b ∈ l, ∀ c ∈ l, le a b = true → le b c = true → le a c = true) →
      (jsSortBy le l).Pairwise (fun a b => le a b = true)
  | [], _, _ => by simp [jsSortBy]
  | x :: xs, htot, htrans => by
    have hsub : ∀ a ∈ jsSortBy le xs, a ∈ x :: xs := by
      intro a ha
      exact List.mem_cons_of_mem x (mem_jsSortBy.1 ha)
    exact pairwise_jsInsert le x (jsSortBy le xs)
      (fun b hb => htot x (by simp) b (hsub b hb))
      (fun b hb c hc => htrans x (by simp) b (hsub b hb) c (hsub c hc))
      (pairwise_jsSortBy le xs
        (fun a ha b hb => htot a (by simp [ha]) b (by simp [hb]))
        (fun a ha b hb c hc =>
          htrans a (by simp [ha]) b (by simp [hb]) c (by simp [hc])))

/-- Raw liquidity position as found in the nested
`sourceBalance[network].dexs[dex]` lists (`PoolPosition` in the source). -/
structure RawPos where
  equivalentREG : RawVal
  poolAddress : Option String
  tickLower : Option ℤ
  tickUpper : Option ℤ
  isActive : Option Bool
deriving DecidableEq, Repr

/-- Value stored under one dex key: `some ps` when the raw value is an
array of positions, `none` when it is not an array. -/
abbrev DexMap := List (String × Option (List RawPos))

instance : DecidableEq DexMap :=
  inferInstance

/-- Raw balance record (`BalanceData` in the source).  `sourceBalance`
maps network names to the (possibly null) per-network object, itself
carrying an optional `dexs` map; the two levels of nullability are fused
into one `Option DexMap`. -/
structure Wallet where
  walletAddress : String
  totalBalanceREG : RawVal
  totalBalance : RawVal
  sourceBalance : Option (List (String × Option DexMap))
deriving DecidableEq, Repr

/-- Raw voting power record (`PowerVotingData` in the source); `address`
may be absent, which the source guards with `(entry.address || '')`. -/
structure PowerEntry where
  address : Option String
  powerVoting : RawVal
deriving DecidableEq, Repr

/-- Resolved amount of a balance record:
`parseFloat(String(b.totalBalanceREG || b.totalBalance || 0))`. -/
def resolveBalanceRaw (w : Wallet) : JsNum :=
  parseFloatVal (jsOr (jsOr w.totalBalanceREG w.totalBalance) (.num 0))

/-- Resolved REG amount of a raw position:
`parseFloat(String(pos.equivalentREG || '0'))`. -/
def resolveReg (p : RawPos) : JsNum :=
  parseFloatVal (jsOr p.equivalentREG (.str "0"))

/-- V3 test of the source: `pos.tickLower !== undefined && pos.tickUpper !== undefined`. -/
def isV3 (p : RawPos) : Bool :=
  p.tickLower.isSome && p.tickUpper.isSome

/-- Statistics record produced by `balanceStats` / `powerVotingStats`.
The source stores `stdDev = Math.sqrt(variance)`; the embedding keeps the
rational `variance` in the record and takes the square root in `stdDev`
below. -/
structure StatsQ where
  count : ℕ
  total : ℚ
  mean : ℚ
  median : ℚ
  minVal : ℚ
  maxVal : ℚ
  variance : ℚ
deriving DecidableEq, Repr

/-- Ascending numeric comparator `(a, b) => a - b` of the statistics code:
`a` sorts before `b` when `a - b <= 0`. -/
def numAscLe (a b : ℚ) : Bool :=
  decide (a ≤ b)

/-- Shared statistics body of `balanceStats` and `powerVotingStats`
(lines 47-67 of dataStore.ts), on the resolved, NaN-filtered sample. -/
def statsOfValues : List ℚ → Option StatsQ
  | [] => none
  | v :: vs =>
    let values := v :: vs
    let sorted := jsSortBy numAscLe values
    let total := values.foldl (· + ·) 0
    let mean := total / (values.length : ℚ)
    let median :=
      if values.length % 2 = 0 then
        (sorted.getD (values.length / 2 - 1) 0 + sorted.getD (values.length / 2) 0) / 2
      else
        sorted.getD (values.length / 2) 0
    let variance := (values.foldl (fun s x => s + (x - mean) ^ 2) 0) / (values.length : ℚ)
    some ⟨values.length, total, mean, median, vs.foldl min v, vs.foldl max v, variance⟩

/-- Standard deviation of a statistics record: `Math.sqrt(variance)`. -/
noncomputable def stdDev (s : StatsQ) : ℝ :=
  Real.sqrt (s.variance : ℝ)

/-- The `balanceStats` computed property: resolve every record, drop the
NaN resolutions, and aggregate; null when there is nothing to aggregate. -/
def balanceStats (bs : List Wallet) : Option StatsQ :=
  if bs.isEmpty then none
  else statsOfValues (bs.filterMap resolveBalanceRaw)

/-- One distribution bin; `hi = none` models the `Infinity` upper bound of
the last bin. -/
structure Bin where
  label : String
  lo : ℚ
  hi : Option ℚ
  count : ℕ
deriving DecidableEq, Repr

/-- The six fixed bins of `balanceDistribution` (zero counts). -/
def initBins : List Bin :=
  [⟨"0-100", 0, some 100, 0⟩,
   ⟨"100-500", 100, some 500, 0⟩,
   ⟨"500-1000", 500, some 1000, 0⟩,
   ⟨"1000-5000", 1000, some 5000, 0⟩,
   ⟨"5000-10000", 5000, some 10000, 0⟩,
   ⟨"10000+", 10000, none, 0⟩]

/-- Bin membership test `value >= b.min && value < b.max` (the last bin
has no upper bound). -/
def binMatches (v : ℚ) (b : Bin) : Bool :=
  decide (b.lo ≤ v) &&
    match b.hi with
    | some h => decide (v < h)
    | none => true

/-- Increment the first bin matching `v` (models `bins.find(...)` followed
by `bin.count++`). -/
def bump (v : ℚ) : List Bin → List Bin
  | [] => []
  | b :: rest =>
    if binMatches v b then { b with count := b.count + 1 } :: rest
    else b :: bump v rest

/-- The `balanceDistribution` computed property: resolve, drop NaN and
non-positive values, then count each retained value into the first
matching bin. -/
def balanceDistribution (bs : List Wallet) : Option (List Bin) :=
  if bs.isEmpty then none
  else
    let values := (bs.filterMap resolveBalanceRaw).filter fun v => decide (0 < v)
    if values.isEmpty then none
    else some (values.foldl (fun acc v => bump v acc) initBins)

/-- Per-kind pool statistics of `poolAnalysis` (`PoolStats` in the
source); `dexs` is the per-dex REG total record, in insertion order. -/
structure PoolStats where
  totalREG : JsNum
  count : ℕ
  dexs : List (String × JsNum)
deriving DecidableEq, Repr

/-- Record lookup in a per-dex total object. -/
def dexsGet (d : List (String × JsNum)) (k : String) : Option JsNum :=
  (d.find? fun p => p.1 == k).map (·.2)

/-- Record update `dexs[k] = v`, keeping insertion order for a fresh key. -/
def dexsSet (d : List (String × JsNum)) (k : String) (v : JsNum) : List (String × JsNum) :=
  if (d.find? fun p => p.1 == k).isSome then
    d.map fun p => if p.1 == k then (k, v) else p
  else
    d ++ [(k, v)]

/-- `stats.totalREG += reg; stats.count++; stats.dexs[dex] = (stats.dexs[dex] || 0) + reg`. -/
def statsAdd (s : PoolStats) (dex : String) (reg : JsNum) : PoolStats :=
  { totalREG := jsAdd s.totalREG reg
    count := s.count + 1
    dexs := dexsSet s.dexs dex (jsAdd (some (jsNumOr0 ((dexsGet s.dexs dex).getD (some 0)))) reg) }

/-- Accumulator of the `poolAnalysis` fold; `pools` models the
`Set<string>` of pool addresses in insertion order. -/
structure PAState where
  v2 : PoolStats
  v3 : PoolStats
  pools : List (Option String)
deriving DecidableEq, Repr

/-- Set insertion (`Set.add`): append the element unless present. -/
def setInsert [DecidableEq β] (l : List β) (x : β) : List β :=
  if x ∈ l then l else l ++ [x]

/-- Per-position step of `poolAnalysis` (lines 201-220 of dataStore.ts):
skip the position when its resolved amount is `<= 0`, else add it to the
V3 or V2 statistics and record its pool address. -/
def paPosStep (dexName : String) (st : PAState) (p : RawPos) : PAState :=
  let regAmount := resolveReg p
  if jsLe regAmount (some 0) then st
  else
    let st1 :=
      if isV3 p then { st with v3 := statsAdd st.v3 dexName regAmount }
      else { st with v2 := statsAdd st.v2 dexName regAmount }
    { st1 with pools := setInsert st1.pools p.poolAddress }

/-- Per-dex step of `poolAnalysis`: non-array values are skipped. -/
def paDexStep (st : PAState) (entry : String × Option (List RawPos)) : PAState :=
  match entry.2 with
  | none => st
  | some ps => ps.foldl (paPosStep entry.1) st

/-- Lookup of a network key in the `sourceBalance` object. -/
def lookupNet (nets : List (String × Option DexMap)) (k : String) : Option (Option DexMap) :=
  (nets.find? fun p => p.1 == k).map (·.2)

/-- Per-wallet step of `poolAnalysis`: only the `gnosis` network is
inspected (`wallet.sourceBalance?.gnosis?.dexs`). -/
def paWalletStep (st : PAState) (w : Wallet) : PAState :=
  match w.sourceBalance with
  | none => st
  | some nets =>
    match lookupNet nets "gnosis" with
    | none => st
    | some none => st
    | some (some dexs) => dexs.foldl paDexStep st

/-- Final result of `poolAnalysis`. -/
structure PoolAnalysisAgg where
  v2 : PoolStats
  v3 : PoolStats
  totalPools : ℕ
deriving DecidableEq, Repr

/-- The `poolAnalysis` computed property. -/
def poolAnalysis (bs : List Wallet) : Option PoolAnalysisAgg :=
  if bs.isEmpty then none
  else
    let st := bs.foldl paWalletStep ⟨⟨some 0, 0, []⟩, ⟨some 0, 0, []⟩, []⟩
    some ⟨st.v2, st.v3, st.pools.length⟩

/-- Pool kind tag (`'v2' | 'v3'` in the source). -/
inductive PoolKind where
  | v2
  | v3
deriving DecidableEq, Repr

/-- Flattened, annotated position (`AddressPoolPosition` in the source). -/
structure APos where
  network : String
  dex : String
  poolType : PoolKind
  regAmount : JsNum
  orig : RawPos
deriving DecidableEq, Repr

/-- Surviving positions of one dex list, annotated with network and dex
(the `rawPositions.forEach` body of `addressPoolProfiles`). -/
def survivingOf (net dex : String) (ps : List RawPos) : List APos :=
  ps.filterMap fun p =>
    let regAmount := resolveReg p
    if jsLe regAmount (some 0) then none
    else some ⟨net, dex, if isV3 p then .v3 else .v2, regAmount, p⟩

/-- Flat position list of one wallet: networks, then dexs, then positions,
in source order, dropping non-array dex values and filtered positions. -/
def flatPositions (w : Wallet) : List APos :=
  match w.sourceBalance with
  | none => []
  | some nets =>
    nets.flatMap fun nw =>
      match nw.2 with
      | none => []
      | some dexs =>
        dexs.flatMap fun de =>
          match de.2 with
          | none => []
          | some ps => survivingOf nw.1 de.1 ps

/-- Per-address pool profile (`AddressPoolProfile` in the source). -/
structure AddressPoolProfile where
  address : String
  walletREG : ℚ
  poolLiquidityREG : JsNum
  poolCount : ℕ
  dexCount : ℕ
  positions : List APos
deriving DecidableEq, Repr

/-- The wallet-to-profile body of `addressPoolProfiles`: null when there is
no `sourceBalance` or when no position survives the filter. -/
def mkProfile (w : Wallet) : Option AddressPoolProfile :=
  match w.sourceBalance with
  | none => none
  | some _ =>
    let positions := flatPositions w
    if positions.isEmpty then none
    else
      some
        { address := w.walletAddress
          walletREG := jsNumOr0 (resolveBalanceRaw w)
          poolLiquidityREG := positions.foldl (fun s p => jsAdd s p.regAmount) (some 0)
          poolCount := positions.length
          dexCount := ((positions.map fun p => p.network ++ "-" ++ p.dex).dedup).length
          positions := positions }

/-- The `addressPoolProfiles` computed property. -/
def addressPoolProfiles (bs : List Wallet) : List AddressPoolProfile :=
  if bs.isEmpty then [] else bs.filterMap mkProfile

/-- Enriched correlation row (`PoolPowerCorrelation` in the source). -/
structure Correlated where
  address : String
  walletREG : ℚ
  poolLiquidityREG : JsNum
  poolCount : ℕ
  dexCount : ℕ
  positions : List APos
  powerVoting : ℚ
  walletDirectREG : JsNum
  walletVotingShare : JsNum
  poolVotingShare : JsNum
  boostMultiplier : JsNum
deriving DecidableEq, Repr

/-- Voting power map lookup: the `Map` built over the power entries keys
lower-cased addresses (later duplicates win); missing keys and NaN values
collapse to 0 through `|| 0`. -/
def powerValueFor (pv : List PowerEntry) (addr : String) : ℚ :=
  match (pv.reverse.find? fun e => lcString (e.address.getD "") == lcString addr) with
  | some e => jsNumOr0 (parseFloatVal (jsOr e.powerVoting (.num 0)))
  | none => 0

/-- Per-profile body of `poolPowerCorrelation` (lines 296-311 of
dataStore.ts). -/
def enrichProfile (pv : List PowerEntry) (prof : AddressPoolProfile) : Correlated :=
  let powerValue := powerValueFor pv prof.address
  let walletDirectREG := jsMax (jsSub (some prof.walletREG) prof.poolLiquidityREG) (some 0)
  let walletVotingShare := jsMin (some powerValue) walletDirectREG
  let poolVotingShare := jsMax (jsSub (some powerValue) walletDirectREG) (some 0)
  { address := prof.address
    walletREG := prof.walletREG
    poolLiquidityREG := prof.poolLiquidityREG
    poolCount := prof.poolCount
    dexCount := prof.dexCount
    positions := prof.positions
    powerVoting := powerValue
    walletDirectREG := walletDirectREG
    walletVotingShare := walletVotingShare
    poolVotingShare := poolVotingShare
    boostMultiplier :=
      if jsLt (some 0) prof.poolLiquidityREG then jsDiv poolVotingShare prof.poolLiquidityREG
      else some 0 }

/-- Descending comparator `(a, b) => b.poolLiquidityREG - a.poolLiquidityREG`
of `poolPowerCorrelation`; a NaN comparator result counts as equal. -/
def corrLe (a b : Correlated) : Bool :=
  match jsSub b.poolLiquidityREG a.poolLiquidityREG with
  | none => true
  | some d => decide (d ≤ 0)

/-- The `poolPowerCorrelation` computed property. -/
def poolPowerCorrelation (bs : List Wallet) (pv : List PowerEntry) : List Correlated :=
  if (addressPoolProfiles bs).isEmpty || pv.isEmpty then []
  else
    jsSortBy corrLe
      (((addressPoolProfiles bs).map (enrichProfile pv)).filter fun c =>
        decide (0 < c.powerVoting))

/-- Accumulator of the `analyzePoolPositions` traversal in the analysis
view; `positions` keeps the pushed `(equivalentREG, isV3, isActive)`
triples and `dexSet` models the `Set<string>` of `network-dex` keys. -/
structure APAState where
  positions : List (JsNum × Bool × Bool)
  totalRegInPools : JsNum
  poolsInRange : ℕ
  poolsOutOfRange : ℕ
  regInRange : JsNum
  regOutOfRange : JsNum
  v2Pools : ℕ
  v3Pools : ℕ
  dexSet : List String
deriving DecidableEq, Repr

/-- Initial accumulator of `analyzePoolPositions`. -/
def apaInit : APAState :=
  ⟨[], some 0, 0, 0, some 0, some 0, 0, 0, []⟩

/-- Per-position step of `analyzePoolPositions` (lines 95-125 of the
analysis view): skip when the resolved amount is `<= 0`; a V3 position
defaults to inactive, a V2 position is always counted in range. -/
def apaPosStep (st : APAState) (p : RawPos) : APAState :=
  let regAmount := resolveReg p
  if jsLe regAmount (some 0) then st
  else
    let v3 := isV3 p
    let act := p.isActive.getD (if v3 then false else true)
    let st1 := { st with totalRegInPools := jsAdd st.totalRegInPools regAmount }
    let st2 :=
      if v3 then
        let stv := { st1 with v3Pools := st1.v3Pools + 1 }
        if act then
          { stv with poolsInRange := stv.poolsInRange + 1
                     regInRange := jsAdd stv.regInRange regAmount }
        else
          { stv with poolsOutOfRange := stv.poolsOutOfRange + 1
                     regOutOfRange := jsAdd stv.regOutOfRange regAmount }
      else
        { st1 with v2Pools := st1.v2Pools + 1
                   poolsInRange := st1.poolsInRange + 1
                   regInRange := jsAdd st1.regInRange regAmount }
    { st2 with positions := st2.positions ++ [(regAmount, v3, act)] }

/-- Per-dex step of `analyzePoolPositions`: a non-array value is skipped
entirely, but an array value registers its `network-dex` key in the dex
set before any position is examined. -/
def apaDexStep (net : String) (st : APAState) (de : String × Option (List RawPos)) : APAState :=
  match de.2 with
  | none => st
  | some ps =>
    let st1 := { st with dexSet := setInsert st.dexSet (net ++ "-" ++ de.1) }
    ps.foldl apaPosStep st1

/-- Per-network step of `analyzePoolPositions`. -/
def apaNetStep (st : APAState) (nw : String × Option DexMap) : APAState :=
  match nw.2 with
  | none => st
  | some dexs => dexs.foldl (apaDexStep nw.1) st

/-- Result of `analyzePoolPositions`. -/
structure PoolAnalysisOut where
  totalPools : ℕ
  regInPools : JsNum
  poolsInRange : ℕ
  poolsOutOfRange : ℕ
  regInRange : JsNum
  regOutOfRange : JsNum
  poolRegPercentage : JsNum
  v2Pools : ℕ
  v3Pools : ℕ
  dexCount : ℕ
deriving DecidableEq, Repr

/-- The `analyzePoolPositions` helper of the analysis view: null without a
`sourceBalance`, otherwise a full traversal of every network. -/
def analyzePoolPositions (w : Wallet) : Option PoolAnalysisOut :=
  match w.sourceBalance with
  | none => none
  | some nets =>
    let st := nets.foldl apaNetStep apaInit
    let totalReg := resolveBalanceRaw w
    let pct :=
      if jsLt (some 0) totalReg then jsMul (jsDiv st.totalRegInPools totalReg) (some 100)
      else some 0
    some ⟨st.positions.length, st.totalRegInPools, st.poolsInRange, st.poolsOutOfRange,
      st.regInRange, st.regOutOfRange, pct, st.v2Pools, st.v3Pools, st.dexSet.length⟩

/-- Split a character list on a separator, `String.prototype.split` style. -/
def splitOnChar (sep : Char) : List Char → List (List Char)
  | [] => [[]]
  | c :: cs =>
    match splitOnChar sep cs with
    | [] => if c == sep then [[], []] else [[c]]
    | h :: t => if c == sep then [] :: h :: t else (c :: h) :: t

/-- Join character lists with a dash (`join('-')`). -/
def joinDash : List (List Char) → List Char
  | [] => []
  | [x] => x
  | x :: xs => x ++ '-' :: joinDash xs

/-- French month names used by `toLocaleDateString('fr-FR', { month: 'long' })`. -/
def frMonths : List String :=
  ["janvier", "février", "mars", "avril", "mai", "juin", "juillet", "août",
   "septembre", "octobre", "novembre", "décembre"]

/-- Model of `formatSnapshotDate`: a `DD-MM-YYYY` label becomes
`D monthname YYYY`; labels that do not parse as a date render as an
invalid date (day-of-month rollover is not modelled). -/
def formatSnapshotDate (s : String) : String :=
  match (splitOnChar '-' s.data).map String.mk with
  | [d, m, y] =>
    let mn := digitsVal m.data
    if !d.data.isEmpty && d.data.all Char.isDigit &&
        !m.data.isEmpty && m.data.all Char.isDigit &&
        !y.data.isEmpty && y.data.all Char.isDigit &&
        decide (1 ≤ mn) && decide (mn ≤ 12) then
      toString (digitsVal d.data) ++ " " ++ (frMonths.getD (mn - 1) "") ++ " " ++
        toString (digitsVal y.data)
    else "Invalid Date"
  | _ => "Invalid Date"

/-- Raw balances document: either wrapped under `result.balances`, a bare
array, or something that is not an array at all. -/
inductive RawBalancesDoc where
  | wrapped (ws : List Wallet)
  | bare (ws : List Wallet)
  | invalid
deriving DecidableEq, Repr

/-- Unwrap `balances.result?.balances || balances` followed by the
`Array.isArray` check. -/
def unwrapBalances : RawBalancesDoc → Option (List Wallet)
  | .wrapped ws => some ws
  | .bare ws => some ws
  | .invalid => none

/-- Raw voting power document, same dual shape tolerance. -/
inductive RawPowerDoc where
  | wrapped (ps : List PowerEntry)
  | bare (ps : List PowerEntry)
  | invalid
deriving DecidableEq, Repr

/-- Unwrap `powerVoting.result?.powerVoting || powerVoting` followed by
the `Array.isArray` check. -/
def unwrapPower : RawPowerDoc → Option (List PowerEntry)
  | .wrapped ps => some ps
  | .bare ps => some ps
  | .invalid => none

/-- One row of the cross-snapshot address search result. -/
structure SearchEntry where
  date : String
  dateFormatted : String
  isCurrent : Bool
  reg : JsNum
  powerVoting : JsNum
  found : Bool
  poolAnalysis : Option PoolAnalysisOut
deriving DecidableEq, Repr

/-- Entry for the current (uploaded) snapshot; `a` is the trimmed,
lower-cased search address. -/
def currentEntry (bs : List Wallet) (pv : List PowerEntry) (a : String) : SearchEntry :=
  let currentBalance := bs.find? fun b => lcString b.walletAddress == a
  let currentPower := pv.find? fun p => lcString (p.address.getD "") == a
  { date := "Actuel"
    dateFormatted := "Snapshot actuel (uploadé)"
    isCurrent := true
    reg := match currentBalance with | some b => resolveBalanceRaw b | none => some 0
    powerVoting :=
      match currentPower with
      | some p => parseFloatVal (jsOr p.powerVoting (.num 0))
      | none => some 0
    found := currentBalance.isSome || currentPower.isSome
    poolAnalysis := currentBalance.bind analyzePoolPositions }

/-- One dated historical snapshot fetch: the date label together with the
outcome of `loadSnapshot` (a thrown error or the two raw documents). -/
abbrev SnapshotFetch := String × Except Unit (RawBalancesDoc × RawPowerDoc)

/-- Entry for one historical snapshot: a failed load is caught and turned
into a not-found entry for its date; a successful load is searched for the
address in both documents. -/
def histEntry (a : String) (snap : SnapshotFetch) : SearchEntry :=
  match snap.2 with
  | .error _ =>
    { date := snap.1
      dateFormatted := formatSnapshotDate snap.1
      isCurrent := false
      reg := some 0
      powerVoting := some 0
      found := false
      poolAnalysis := none }
  | .ok docs =>
    let balanceData :=
      (unwrapBalances docs.1).bind fun ws => ws.find? fun b => lcString b.walletAddress == a
    let powerData :=
      (unwrapPower docs.2).bind fun ps => ps.find? fun p => lcString (p.address.getD "") == a
    { date := snap.1
      dateFormatted := formatSnapshotDate snap.1
      isCurrent := false
      reg := match balanceData with | some b => resolveBalanceRaw b | none => some 0
      powerVoting :=
        match powerData with
        | some p => parseFloatVal (jsOr p.powerVoting (.num 0))
        | none => some 0
      found := balanceData.isSome || powerData.isSome
      poolAnalysis := balanceData.bind analyzePoolPositions }

/-- Trim ASCII whitespace on both ends (`String.prototype.trim`). -/
def trimStr (s : String) : String :=
  let ws := fun c => c == ' ' || c == '\t' || c == '\n' || c == '\r'
  ⟨((s.data.dropWhile ws).reverse.dropWhile ws).reverse⟩

/-- Reverse a `DD-MM-YYYY` label into `YYYY-MM-DD` for comparison. -/
def revDate (s : String) : String :=
  ⟨joinDash ((splitOnChar '-' s.data).reverse)⟩

/-- Strict lexicographic comparison on character lists (the model of
`localeCompare` on the date labels). -/
def clLt : List Char → List Char → Bool
  | [], [] => false
  | [], _ :: _ => true
  | _ :: _, [] => false
  | a :: as, b :: bs =>
    if a.toNat < b.toNat then true
    else if b.toNat < a.toNat then false
    else clLt as bs

/-- Comparator of the search results: the current entry first, then
historical entries newest to oldest. -/
def searchLe (a b : SearchEntry) : Bool :=
  if a.isCurrent then true
  else if b.isCurrent then false
  else !(clLt (revDate a.date).data (revDate b.date).data)

/-- The `searchAddressAcrossSnapshots` procedure: the current snapshot is
always examined, then each historical snapshot contributes exactly one
entry (not-found when its load failed), and the entries are sorted current
first, then by date descending. -/
def searchAddressAcrossSnapshots (bs : List Wallet) (pv : List PowerEntry)
    (rawAddr : String) (snaps : List SnapshotFetch) : List SearchEntry :=
  if trimStr rawAddr == "" then []
  else
    let a := lcString (trimStr rawAddr)
    jsSortBy searchLe (currentEntry bs pv a :: snaps.map (histEntry a))

/-! Concrete sample data used by witnesses and counterexamples. -/

/-- Sample V3 position on sushiswap, 100 REG. -/
def exPos1 : RawPos := ⟨.str "100", some "0xP1", some (-100), some 100, none⟩

/-- Sample V2 position on honeyswap, 50 REG. -/
def exPos2 : RawPos := ⟨.str "50", some "0xP2", none, none, none⟩

/-- Sample wallet with two gnosis pool positions. -/
def exPoolWallet : Wallet :=
  ⟨"0x1", .num 500, .absent,
    some [("gnosis", some [("sushiswap", some [exPos1]), ("honeyswap", some [exPos2])])]⟩

/-- Sample voting power list for `exPoolWallet`. -/
def exPower : List PowerEntry := [⟨some "0x1", .str "2000"⟩]

/-- Sample profile used to exercise the attribution formulas directly. -/
def exProfile : AddressPoolProfile := ⟨"0x1", 500, some 150, 2, 2, []⟩

/-- C1.  For every wallet profile produced by the engine, with a
well-defined non-negative power and a well-defined walletDirectREG
(`min(power, walletDirectREG)` and `max(power - walletDirectREG, 0)`),
the shares add up exactly to the power. -/
theorem c1_attribution_sum (prof : AddressPoolProfile) (pv : List PowerEntry)
    (_hp : 0 ≤ (enrichProfile pv prof).powerVoting)
    (hd : ∃ d : ℚ, (enrichProfile pv prof).walletDirectREG = some d) :
    jsAdd (enrichProfile pv prof).walletVotingShare (enrichProfile pv prof).poolVotingShare
      = some (enrichProfile pv prof).powerVoting := by
  obtain ⟨d, hd⟩ := hd
  have hw : (enrichProfile pv prof).walletVotingShare
      = jsMin (some ((enrichProfile pv prof).powerVoting))
          ((enrichProfile pv prof).walletDirectREG) := rfl
  have hq : (enrichProfile pv prof).poolVotingShare
      = jsMax (jsSub (some ((enrichProfile pv prof).powerVoting))
          ((enrichProfile pv prof).walletDirectREG)) (some 0) := rfl
  rw [hw, hq, hd]
  set p := (enrichProfile pv prof).powerVoting with hpdef
  simp only [jsMin, jsMax, jsSub, jsAdd, Option.some.injEq]
  rcases le_total p d with h | h
  · rw [min_eq_left h, max_eq_right (by linarith)]
    ring
  · rw [min_eq_right h, max_eq_left (by linarith)]
    ring

unseal Rat.mul Rat.add Rat.sub Rat.inv in
/-- Witness for C1 at a concrete profile and power list. -/
theorem c1_attribution_sum_witness :
    0 ≤ (enrichProfile exPower exProfile).powerVoting ∧
    jsAdd (enrichProfile exPower exProfile).walletVotingShare
        (enrichProfile exPower exProfile).poolVotingShare
      = some (enrichProfile exPower exProfile).powerVoting :=
  ⟨by decide,
    c1_attribution_sum exProfile exPower (by decide)
      ⟨350, by decide⟩⟩

/-- C2.  walletDirectREG is `max(walletREG - poolLiquidityREG, 0)`: it is
never a negative number, and it collapses to 0 whenever the pool liquidity
exceeds the wallet's total REG. -/
theorem c2_wallet_direct (prof : AddressPoolProfile) (pv : List PowerEntry) :
    (enrichProfile pv prof).walletDirectREG
        = jsMax (jsSub (some prof.walletREG) prof.poolLiquidityREG) (some 0) ∧
    (∀ d : ℚ, (enrichProfile pv prof).walletDirectREG = some d → 0 ≤ d) ∧
    (∀ l : ℚ, prof.poolLiquidityREG = some l → prof.walletREG < l →
      (enrichProfile pv prof).walletDirectREG = some 0) := by
  have hwd : (enrichProfile pv prof).walletDirectREG
      = jsMax (jsSub (some prof.walletREG) prof.poolLiquidityREG) (some 0) := rfl
  refine ⟨hwd, ?_, ?_⟩
  · intro d hd
    rw [hwd] at hd
    cases hpl : prof.poolLiquidityREG with
    | none => rw [hpl] at hd; simp [jsSub, jsMax] at hd
    | some l =>
      rw [hpl] at hd
      simp only [jsSub, jsMax, Option.some.injEq] at hd
      rw [← hd]
      exact le_max_right _ _
  · intro l hl hlt
    rw [hwd, hl]
    simp only [jsSub, jsMax, Option.some.injEq]
    exact max_eq_right (by linarith)

/-- Witness for C2: a wallet whose pool liquidity exceeds its total REG
has a zero direct share. -/
theorem c2_wallet_direct_witness :
    ((⟨"0x2", 5, some 10, 1, 1, []⟩ : AddressPoolProfile).poolLiquidityREG = some 10) ∧
    (enrichProfile [] ⟨"0x2", 5, some 10, 1, 1, []⟩).walletDirectREG = some 0 :=
  ⟨rfl, (c2_wallet_direct ⟨"0x2", 5, some 10, 1, 1, []⟩ []).2.2 10 rfl (by norm_num)⟩

/-- One-position wallet on an arbitrary network, used for C10. -/
def oneNetWallet (net dex pooladdr addr : String) (q : ℚ) : Wallet :=
  ⟨addr, .num 0, .absent, some [(net, some [(dex, some [⟨.num q, some pooladdr, none, none, none⟩])])]⟩

/-- C10.  `poolAnalysis` only inspects the `gnosis` key: a positive
position under any other network contributes nothing to its totals,
counts, and pool set, while `addressPoolProfiles` does count it in the
wallet's pool liquidity. -/
theorem c10_gnosis_only (net dex pooladdr addr : String) (q : ℚ)
    (hn : net ≠ "gnosis") (hq : 0 < q) :
    poolAnalysis [oneNetWallet net dex pooladdr addr q]
        = some ⟨⟨some 0, 0, []⟩, ⟨some 0, 0, []⟩, 0⟩ ∧
    (addressPoolProfiles [oneNetWallet net dex pooladdr addr q]).map
        (fun p => p.poolLiquidityREG) = [some q] := by
  have hbeq : (net == "gnosis") = false := by
    simp [hn]
  have hkeep : jsLe (resolveReg ⟨.num q, some pooladdr, none, none, none⟩) (some 0) = false := by
    simp [resolveReg, parseFloatVal, jsOr, truthy, jsLe, hq.ne', not_le.2 hq]
  have hres : resolveReg ⟨.num q, some pooladdr, none, none, none⟩ = some q := by
    simp [resolveReg, parseFloatVal, jsOr, truthy, hq.ne']
  constructor
  · simp [poolAnalysis, oneNetWallet, paWalletStep, lookupNet, List.find?, hbeq]
  · simp [addressPoolProfiles, oneNetWallet, mkProfile, flatPositions, survivingOf,
      List.filterMap, hkeep, isV3, hres, jsAdd, jsLe, not_le.2 hq]

/-- Witness for C10 on the ethereum network with a 5 REG position. -/
theorem c10_gnosis_only_witness :
    poolAnalysis [oneNetWallet "ethereum" "dexA" "0xP" "0xW" 5]
        = some ⟨⟨some 0, 0, []⟩, ⟨some 0, 0, []⟩, 0⟩ ∧
    (addressPoolProfiles [oneNetWallet "ethereum" "dexA" "0xP" "0xW" 5]).map
        (fun p => p.poolLiquidityREG) = [some 5] :=
  c10_gnosis_only "ethereum" "dexA" "0xP" "0xW" 5 (by decide) (by norm_num)

theorem foldl_add_map (f : ℚ → ℚ) :
    ∀ (l : List ℚ) (a : ℚ), l.foldl (fun s x => s + f x) a = a + (l.map f).sum
  | [], a => by simp
  | x :: xs, a => by
    rw [List.foldl_cons, foldl_add_map f xs (a + f x), List.map_cons, List.sum_cons]
    ring

unseal Rat.mul Rat.add Rat.sub Rat.inv in
/-- C9.  `stdDev` is the population standard deviation: the variance
divides the sum of squared deviations by the count (not count minus one),
a single-element sample has standard deviation exactly 0, and the sample
[10, 30] has standard deviation exactly 10, also when it is produced by
`balanceStats` from two raw records. -/
theorem c9_population_stddev :
    (∀ v : ℚ, (statsOfValues [v]).map stdDev = some 0) ∧
    (statsOfValues [10, 30]).map stdDev = some 10 ∧
    (balanceStats [⟨"0xA", .num 10, .absent, none⟩, ⟨"0xB", .num 30, .absent, none⟩]).map stdDev
      = some 10 ∧
    (∀ (values : List ℚ) (s : StatsQ), statsOfValues values = some s →
      s.variance = ((values.map fun x => (x - s.mean) ^ 2).sum) / (s.count : ℚ)) := by
  have h1030 : statsOfValues [10, 30] = some ⟨2, 40, 20, 20, 10, 30, 100⟩ := by
    decide
  have hsqrt : Real.sqrt ((100 : ℚ) : ℝ) = 10 := by
    rw [show ((100 : ℚ) : ℝ) = 10 ^ 2 by norm_num, Real.sqrt_sq (by norm_num)]
  refine ⟨?_, ?_, ?_, ?_⟩
  · intro v
    have hv : statsOfValues [v] = some ⟨1, v, v, v, v, v, 0⟩ := by
      simp [statsOfValues, jsSortBy, jsInsert]
    rw [hv]
    simp [stdDev]
  · rw [h1030]
    simpa [stdDev] using hsqrt
  · have hb : balanceStats [⟨"0xA", .num 10, .absent, none⟩, ⟨"0xB", .num 30, .absent, none⟩]
        = some ⟨2, 40, 20, 20, 10, 30, 100⟩ := by
      decide
    rw [hb]
    simpa [stdDev] using hsqrt
  · intro values s h
    cases values with
    | nil => simp [statsOfValues] at h
    | cons v vs =>
      rw [statsOfValues, Option.some.injEq] at h
      subst h
      simp only
      rw [foldl_add_map (fun x => (x - _) ^ 2) (v :: vs) 0, zero_add]

unseal Rat.mul Rat.add Rat.sub Rat.inv in
/-- Witness for C9: the population variance formula instantiated on the
two-element sample. -/
theorem c9_population_stddev_witness :
    statsOfValues [10, 30] = some ⟨2, 40, 20, 20, 10, 30, 100⟩ ∧
    (⟨2, 40, 20, 20, 10, 30, 100⟩ : StatsQ).variance
      = ((([10, 30] : List ℚ).map
          fun x => (x - (⟨2, 40, 20, 20, 10, 30, 100⟩ : StatsQ).mean) ^ 2).sum)
        / (((⟨2, 40, 20, 20, 10, 30, 100⟩ : StatsQ).count : ℕ) : ℚ) :=
  ⟨by decide,
    c9_population_stddev.2.2.2 [10, 30] ⟨2, 40, 20, 20, 10, 30, 100⟩ (by decide)⟩

unseal Rat.mul Rat.add Rat.sub Rat.inv in
/-- Counterexample for C5: a record whose explicit REG field is a truthy
non-numeric string is dropped from the statistics (it is not counted as 0
and the generic total-balance field is not consulted), and a record whose
explicit field is the numeric value 0 falls back to the generic field. -/
theorem c5_counterexample :
    balanceStats [⟨"0xa", .str "abc", .num 7, none⟩] = none ∧
    resolveBalanceRaw ⟨"0xb", .num 0, .num 9, none⟩ = some 9 ∧
    (balanceStats [⟨"0xa", .str "abc", .num 7, none⟩, ⟨"0xc", .num 10, .absent, none⟩]).map
        StatsQ.count = some 1 := by
  decide

/-- C5 as amended: resolution follows JavaScript truthiness.  The explicit
REG field wins whenever it is truthy (even when it is a non-numeric
string); the generic total-balance field is consulted only when the
explicit field is falsy (absent, 0 or empty); when both are falsy the
record resolves to 0; and a record whose chosen field parses to NaN is
dropped from the statistics sample rather than counted as 0. -/
theorem c5_amended_resolution :
    (∀ w : Wallet, truthy w.totalBalanceREG = true →
      resolveBalanceRaw w = parseFloatVal w.totalBalanceREG) ∧
    (∀ w : Wallet, truthy w.totalBalanceREG = false → truthy w.totalBalance = true →
      resolveBalanceRaw w = parseFloatVal w.totalBalance) ∧
    (∀ w : Wallet, truthy w.totalBalanceREG = false → truthy w.totalBalance = false →
      resolveBalanceRaw w = some 0) ∧
    (∀ (bs : List Wallet) (s : StatsQ), balanceStats bs = some s →
      s.count = (bs.filterMap resolveBalanceRaw).length) := by
  refine ⟨?_, ?_, ?_, ?_⟩
  · intro w h
    simp [resolveBalanceRaw, jsOr, h]
  · intro w h1 h2
    simp [resolveBalanceRaw, jsOr, h1, h2]
  · intro w h1 h2
    simp [resolveBalanceRaw, jsOr, h1, h2, parseFloatVal]
  · intro bs s h
    rw [balanceStats] at h
    by_cases hbs : bs.isEmpty
    · simp [hbs] at h
    · rw [if_neg hbs] at h
      cases hl : bs.filterMap resolveBalanceRaw with
      | nil => rw [hl, statsOfValues] at h; exact absurd h (by simp)
      | cons v vs =>
        rw [hl, statsOfValues, Option.some.injEq] at h
        subst h
        simp

unseal Rat.mul Rat.add Rat.sub Rat.inv in
/-- Witness for the amended C5 at concrete records. -/
theorem c5_amended_resolution_witness :
    (truthy (RawVal.str "abc") = true ∧
      resolveBalanceRaw ⟨"0xa", .str "abc", .num 7, none⟩ = parseFloatVal (RawVal.str "abc")) ∧
    (balanceStats [⟨"0xc", .num 10, .absent, none⟩] = some ⟨1, 10, 10, 10, 10, 10, 0⟩ ∧
      (⟨1, 10, 10, 10, 10, 10, 0⟩ : StatsQ).count
        = (List.filterMap resolveBalanceRaw [⟨"0xc", .num 10, .absent, none⟩]).length) :=
  ⟨⟨by decide, c5_amended_resolution.1 ⟨"0xa", .str "abc", .num 7, none⟩ (by decide)⟩,
    ⟨by decide,
      c5_amended_resolution.2.2.2 [⟨"0xc", .num 10, .absent, none⟩] ⟨1, 10, 10, 10, 10, 10, 0⟩
        (by decide)⟩⟩

/-- Total of the per-bin counters. -/
def sumCounts (l : List Bin) : ℕ :=
  (l.map Bin.count).sum

/-- Bounds of a bin, forgetting its label and counter. -/
def binShape (b : Bin) : ℚ × Option ℚ :=
  (b.lo, b.hi)

theorem bump_shape (v : ℚ) :
    ∀ l : List Bin, (bump v l).map binShape = l.map binShape
  | [] => rfl
  | b :: rest => by
    rw [bump]
    split
    · simp [binShape]
    · simp [binShape, bump_shape v rest]

theorem bump_length (v : ℚ) : ∀ l : List Bin, (bump v l).length = l.length
  | [] => rfl
  | b :: rest => by
    rw [bump]
    split
    · rfl
    · simp [bump_length v rest]

theorem sumCounts_bump (v : ℚ) :
    ∀ l : List Bin, (∃ b ∈ l, binMatches v b = true) →
      sumCounts (bump v l) = sumCounts l + 1
  | [], h => by simp at h
  | b :: rest, h => by
    rw [bump]
    by_cases hb : binMatches v b = true
    · rw [if_pos hb]
      simp [sumCounts]
      omega
    · rw [if_neg hb]
      have hrest : ∃ x ∈ rest, binMatches v x = true := by
        rcases h with ⟨x, hx, hmx⟩
        rcases List.mem_cons.1 hx with rfl | hx
        · exact absurd hmx hb
        · exact ⟨x, hx, hmx⟩
      have ih := sumCounts_bump v rest hrest
      simp only [sumCounts, List.map_cons, List.sum_cons] at ih ⊢
      omega

theorem exists_match_init (v : ℚ) (hv : 0 < v) :
    ∃ b ∈ initBins, binMatches v b = true := by
  rcases lt_or_le v 100 with h | h
  · exact ⟨⟨"0-100", 0, some 100, 0⟩, by simp [initBins],
      by simp [binMatches]; exact ⟨hv.le, h⟩⟩
  rcases lt_or_le v 500 with h2 | h2
  · exact ⟨⟨"100-500", 100, some 500, 0⟩, by simp [initBins],
      by simp [binMatches]; exact ⟨h, h2⟩⟩
  rcases lt_or_le v 1000 with h3 | h3
  · exact ⟨⟨"500-1000", 500, some 1000, 0⟩, by simp [initBins],
      by simp [binMatches]; exact ⟨h2, h3⟩⟩
  rcases lt_or_le v 5000 with h4 | h4
  · exact ⟨⟨"1000-5000", 1000, some 5000, 0⟩, by simp [initBins],
      by simp [binMatches]; exact ⟨h3, h4⟩⟩
  rcases lt_or_le v 10000 with h5 | h5
  · exact ⟨⟨"5000-10000", 5000, some 10000, 0⟩, by simp [initBins],
      by simp [binMatches]; exact ⟨h4, h5⟩⟩
  · exact ⟨⟨"10000+", 10000, none, 0⟩, by simp [initBins],
      by simp [binMatches]; exact h5⟩

/-- Bin matching only depends on the bin bounds. -/
theorem exists_match_of_shape (v : ℚ) (hv : 0 < v) :
    ∀ l : List Bin, l.map binShape = initBins.map binShape →
      ∃ b ∈ l, binMatches v b = true := by
  intro l hshape
  rcases exists_match_init v hv with ⟨b0, hb0, hm0⟩
  have hmem : binShape b0 ∈ l.map binShape := by
    rw [hshape]
    exact List.mem_map_of_mem _ hb0
  rcases List.mem_map.1 hmem with ⟨b, hb, hsb⟩
  refine ⟨b, hb, ?_⟩
  have : binMatches v b = binMatches v b0 := by
    rw [binMatches, binMatches]
    have h1 : b.lo = b0.lo := congrArg Prod.fst hsb
    have h2 : b.hi = b0.hi := congrArg Prod.snd hsb
    rw [h1, h2]
  rw [this]
  exact hm0

theorem sumCounts_foldl_bump :
    ∀ (vs : List ℚ) (l : List Bin), l.map binShape = initBins.map binShape →
      (∀ v ∈ vs, 0 < v) →
      sumCounts (vs.foldl (fun acc v => bump v acc) l) = sumCounts l + vs.length
  | [], l, _, _ => by simp
  | v :: vs, l, hshape, hpos => by
    rw [List.foldl_cons,
      sumCounts_foldl_bump vs (bump v l) (by rw [bump_shape]; exact hshape)
        (fun x hx => hpos x (by simp [hx])),
      sumCounts_bump v l (exists_match_of_shape v (hpos v (by simp)) l hshape)]
    simp
    omega

theorem length_foldl_bump :
    ∀ (vs : List ℚ) (l : List Bin),
      (vs.foldl (fun acc v => bump v acc) l).length = l.length
  | [], _ => rfl
  | v :: vs, l => by
    rw [List.foldl_cons, length_foldl_bump vs (bump v l), bump_length]

/-- Every positive value matches exactly one of the six fixed bins. -/
theorem binMatches_unique (v : ℚ) (hv : 0 < v) :
    initBins.countP (binMatches v) = 1 := by
  rcases lt_or_le v 100 with h1 | h1
  · simp [initBins, List.countP_cons, binMatches, hv.le, h1,
      not_le.2 (h1.trans_le (by norm_num : (100:ℚ) ≤ 500)),
      not_le.2 (h1.trans_le (by norm_num : (100:ℚ) ≤ 1000)),
      not_le.2 (h1.trans_le (by norm_num : (100:ℚ) ≤ 5000)),
      not_le.2 (h1.trans_le (by norm_num : (100:ℚ) ≤ 10000)), not_le.2 h1]
  rcases lt_or_le v 500 with h2 | h2
  · simp [initBins, List.countP_cons, binMatches, h1, h2, not_lt.2 h1,
      not_le.2 (h2.trans_le (by norm_num : (500:ℚ) ≤ 1000)),
      not_le.2 (h2.trans_le (by norm_num : (500:ℚ) ≤ 5000)),
      not_le.2 (h2.trans_le (by norm_num : (500:ℚ) ≤ 10000)), not_le.2 h2,
      le_trans (by norm_num : (0:ℚ) ≤ 100) h1]
  rcases lt_or_le v 1000 with h3 | h3
  · simp [initBins, List.countP_cons, binMatches, h2, h3, not_lt.2 h2,
      not_lt.2 (le_trans (by norm_num : (100:ℚ) ≤ 500) h2),
      not_le.2 (h3.trans_le (by norm_num : (1000:ℚ) ≤ 5000)),
      not_le.2 (h3.trans_le (by norm_num : (1000:ℚ) ≤ 10000)), not_le.2 h3,
      le_trans (by norm_num : (0:ℚ) ≤ 500) h2,
      le_trans (by norm_num : (100:ℚ) ≤ 500) h2]
  rcases lt_or_le v 5000 with h4 | h4
  · simp [initBins, List.countP_cons, binMatches, h3, h4, not_lt.2 h3,
      not_lt.2 (le_trans (by norm_num : (100:ℚ) ≤ 1000) h3),
      not_lt.2 (le_trans (by norm_num : (500:ℚ) ≤ 1000) h3),
      not_le.2 (h4.trans_le (by norm_num : (5000:ℚ) ≤ 10000)), not_le.2 h4,
      le_trans (by norm_num : (0:ℚ) ≤ 1000) h3,
      le_trans (by norm_num : (100:ℚ) ≤ 1000) h3,
      le_trans (by norm_num : (500:ℚ) ≤ 1000) h3]
  rcases lt_or_le v 10000 with h5 | h5
  · simp [initBins, List.countP_cons, binMatches, h4, h5, not_lt.2 h4,
      not_lt.2 (le_trans (by norm_num : (100:ℚ) ≤ 5000) h4),
      not_lt.2 (le_trans (by norm_num : (500:ℚ) ≤ 5000) h4),
      not_lt.2 (le_trans (by norm_num : (1000:ℚ) ≤ 5000) h4), not_le.2 h5,
      le_trans (by norm_num : (0:ℚ) ≤ 5000) h4,
      le_trans (by norm_num : (100:ℚ) ≤ 5000) h4,
      le_trans (by norm_num : (500:ℚ) ≤ 5000) h4,
      le_trans (by norm_num : (1000:ℚ) ≤ 5000) h4]
  · simp [initBins, List.countP_cons, binMatches, h5, not_lt.2 h5,
      not_lt.2 (le_trans (by norm_num : (100:ℚ) ≤ 10000) h5),
      not_lt.2 (le_trans (by norm_num : (500:ℚ) ≤ 10000) h5),
      not_lt.2 (le_trans (by norm_num : (1000:ℚ) ≤ 10000) h5),
      not_lt.2 (le_trans (by norm_num : (5000:ℚ) ≤ 10000) h5),
      le_trans (by norm_num : (0:ℚ) ≤ 10000) h5,
      le_trans (by norm_num : (100:ℚ) ≤ 10000) h5,
      le_trans (by norm_num : (500:ℚ) ≤ 10000) h5,
      le_trans (by norm_num : (1000:ℚ) ≤ 10000) h5,
      le_trans (by norm_num : (5000:ℚ) ≤ 10000) h5]

/-- C8.  Distribution binning is an exhaustive partition of the retained
sample: values `<= 0` (and NaN resolutions) are excluded before binning,
every positive value matches exactly one of the six half-open bins, and
the six bin counts sum to the number of retained values. -/
theorem c8_distribution (bs : List Wallet) (dist : List Bin)
    (h : balanceDistribution bs = some dist) :
    sumCounts dist = ((bs.filterMap resolveBalanceRaw).filter fun v => decide (0 < v)).length ∧
    dist.length = 6 ∧
    (∀ v : ℚ, 0 < v → initBins.countP (binMatches v) = 1) := by
  rw [balanceDistribution] at h
  by_cases h1 : bs.isEmpty
  · rw [if_pos h1] at h
    exact absurd h (by simp)
  · rw [if_neg h1] at h
    by_cases h2 : ((bs.filterMap resolveBalanceRaw).filter fun v => decide (0 < v)).isEmpty
    · rw [if_pos h2] at h
      exact absurd h (by simp)
    · rw [if_neg h2, Option.some.injEq] at h
      subst h
      refine ⟨?_, ?_, fun v hv => binMatches_unique v hv⟩
      · rw [sumCounts_foldl_bump _ initBins rfl ?_]
        · simp [sumCounts, initBins]
        · intro v hv
          have := List.mem_filter.1 hv
          simpa using this.2
      · rw [length_foldl_bump]
        rfl

/-- Wallets feeding the C8 witness: values 10, 150 and a negative one. -/
def exDistWallets : List Wallet :=
  [⟨"0xA", .num 10, .absent, none⟩, ⟨"0xC", .num 150, .absent, none⟩,
   ⟨"0xD", .num (-3), .absent, none⟩]

/-- Expected bins for `exDistWallets`. -/
def exDistBins : List Bin :=
  [⟨"0-100", 0, some 100, 1⟩,
   ⟨"100-500", 100, some 500, 1⟩,
   ⟨"500-1000", 500, some 1000, 0⟩,
   ⟨"1000-5000", 1000, some 5000, 0⟩,
   ⟨"5000-10000", 5000, some 10000, 0⟩,
   ⟨"10000+", 10000, none, 0⟩]

unseal Rat.mul Rat.add Rat.sub Rat.inv in
/-- Witness for C8 at a concrete dataset. -/
theorem c8_distribution_witness :
    balanceDistribution exDistWallets = some exDistBins ∧
    (sumCounts exDistBins
        = ((exDistWallets.filterMap resolveBalanceRaw).filter fun v => decide (0 < v)).length ∧
      exDistBins.length = 6 ∧
      (∀ v : ℚ, 0 < v → initBins.countP (binMatches v) = 1)) :=
  ⟨by decide,
    c8_distribution exDistWallets exDistBins (by decide)⟩

/-- Survival test of a raw position: kept unless its resolved amount is a
number `<= 0` (a NaN resolution is not `<= 0` and therefore survives). -/
def keepPos (p : RawPos) : Bool :=
  !(jsLe (resolveReg p) (some 0))

/-- Remove the non-surviving positions from one dex map. -/
def dropDexs (dexs : DexMap) : DexMap :=
  dexs.map fun de => (de.1, de.2.map fun ps => ps.filter keepPos)

/-- Remove every position with a non-positive resolved amount from a
wallet's nested positions structure. -/
def dropNonPositive (w : Wallet) : Wallet :=
  { w with
    sourceBalance := w.sourceBalance.map fun nets =>
      nets.map fun nw => (nw.1, nw.2.map dropDexs) }

theorem foldl_filter_eq {β γ : Type _} (p : β → Bool) (g : γ → β → γ)
    (hg : ∀ s b, p b = false → g s b = s) :
    ∀ (l : List β) (init : γ), (l.filter p).foldl g init = l.foldl g init
  | [], _ => rfl
  | b :: l, init => by
    cases hpb : p b with
    | true =>
      rw [List.filter_cons_of_pos hpb, List.foldl_cons, List.foldl_cons,
        foldl_filter_eq p g hg l (g init b)]
    | false =>
      rw [List.filter_cons_of_neg (by simp [hpb]), List.foldl_cons,
        foldl_filter_eq p g hg l init, hg init b hpb]

theorem not_keepPos_iff (p : RawPos) :
    keepPos p = false ↔ jsLe (resolveReg p) (some 0) = true := by
  rw [keepPos]
  cases jsLe (resolveReg p) (some 0) <;> simp

theorem survivingOf_filter (net dex : String) (ps : List RawPos) :
    survivingOf net dex (ps.filter keepPos) = survivingOf net dex ps := by
  rw [survivingOf, survivingOf, List.filterMap_filter]
  congr 1
  funext p
  by_cases h : keepPos p = true
  · simp [h]
  · have hle := (not_keepPos_iff p).1 (by simpa using h)
    simp [h, hle]

theorem flatPositions_drop (w : Wallet) :
    flatPositions (dropNonPositive w) = flatPositions w := by
  rw [flatPositions, flatPositions, dropNonPositive]
  cases hsb : w.sourceBalance with
  | none => rfl
  | some nets =>
    simp only [Option.map, List.flatMap_map]
    congr 1
    funext nw
    cases hv : nw.2 with
    | none => rfl
    | some dexs =>
      simp only [hv, Option.map, dropDexs, List.flatMap_map]
      congr 1
      funext de
      cases hd : de.2 with
      | none => rfl
      | some ps =>
        simp only [hd, Option.map]
        exact survivingOf_filter nw.1 de.1 ps

theorem mkProfile_drop (w : Wallet) :
    mkProfile (dropNonPositive w) = mkProfile w := by
  rw [mkProfile, mkProfile]
  have hf := flatPositions_drop w
  cases hsb : w.sourceBalance with
  | none => simp [dropNonPositive, hsb]
  | some nets =>
    simp only [dropNonPositive, hsb, Option.map]
    rw [show dropNonPositive w
        = { w with
            sourceBalance := (w.sourceBalance.map fun nets =>
              nets.map fun nw => (nw.1, nw.2.map dropDexs)) }
      from rfl] at hf
    simp only [hsb, Option.map] at hf
    rw [hf]
    rfl

theorem addressPoolProfiles_drop (bs : List Wallet) :
    addressPoolProfiles (bs.map dropNonPositive) = addressPoolProfiles bs := by
  rw [addressPoolProfiles, addressPoolProfiles]
  have hemp : (bs.map dropNonPositive).isEmpty = bs.isEmpty := by
    cases bs <;> rfl
  rw [hemp]
  by_cases h : bs.isEmpty
  · rw [if_pos h, if_pos h]
  · rw [if_neg h, if_neg h, List.filterMap_map]
    congr 1
    funext w
    exact mkProfile_drop w

theorem paPosStep_skip (dex : String) (st : PAState) (p : RawPos)
    (h : keepPos p = false) : paPosStep dex st p = st := by
  rw [paPosStep]
  simp [(not_keepPos_iff p).1 h]

theorem paDexStep_drop (st : PAState) (de : String × Option (List RawPos)) :
    paDexStep st (de.1, de.2.map fun ps => ps.filter keepPos) = paDexStep st de := by
  rcases de with ⟨k, v⟩
  cases v with
  | none => rfl
  | some ps =>
    simp only [paDexStep, Option.map]
    exact foldl_filter_eq keepPos (paPosStep k) (fun s b hb => paPosStep_skip k s b hb) ps st

theorem lookupNet_map (nets : List (String × Option DexMap))
    (f : Option DexMap → Option DexMap) (k : String) :
    lookupNet (nets.map fun nw => (nw.1, f nw.2)) k = (lookupNet nets k).map f := by
  induction nets with
  | nil => rfl
  | cons nw nets ih =>
    by_cases h : nw.1 == k
    · simp [lookupNet, List.find?, h]
    · simp only [lookupNet, List.map_cons, List.find?] at ih ⊢
      simp only [h]
      exact ih

theorem paWalletStep_of_some (st : PAState) (w : Wallet) (nets : List (String × Option DexMap))
    (h : w.sourceBalance = some nets) :
    paWalletStep st w
      = match lookupNet nets "gnosis" with
        | none => st
        | some none => st
        | some (some dexs) => dexs.foldl paDexStep st := by
  rw [paWalletStep, h]

theorem paWalletStep_drop (st : PAState) (w : Wallet) :
    paWalletStep st (dropNonPositive w) = paWalletStep st w := by
  cases hsb : w.sourceBalance with
  | none =>
    rw [paWalletStep, paWalletStep,
      show (dropNonPositive w).sourceBalance = none by simp [dropNonPositive, hsb], hsb]
  | some nets =>
    rw [paWalletStep_of_some st w nets hsb,
      paWalletStep_of_some st (dropNonPositive w)
        (nets.map fun nw => (nw.1, Option.map dropDexs nw.2))
        (by simp [dropNonPositive, hsb]),
      lookupNet_map]
    cases hln : lookupNet nets "gnosis" with
    | none => rfl
    | some v =>
      cases v with
      | none => rfl
      | some dexs =>
        simp only [Option.map, dropDexs, List.foldl_map]
        congr 1
        funext s de
        exact paDexStep_drop s de

theorem poolAnalysis_drop (bs : List Wallet) :
    poolAnalysis (bs.map dropNonPositive) = poolAnalysis bs := by
  rw [poolAnalysis, poolAnalysis]
  have hemp : (bs.map dropNonPositive).isEmpty = bs.isEmpty := by
    cases bs <;> rfl
  rw [hemp]
  by_cases h : bs.isEmpty
  · rw [if_pos h, if_pos h]
  · rw [if_neg h, if_neg h, List.foldl_map]
    have hfold : bs.foldl (fun s v => paWalletStep s (dropNonPositive v))
          ⟨⟨some 0, 0, []⟩, ⟨some 0, 0, []⟩, []⟩
        = bs.foldl paWalletStep ⟨⟨some 0, 0, []⟩, ⟨some 0, 0, []⟩, []⟩ := by
      congr 1
      funext s v
      exact paWalletStep_drop s v
    rw [hfold]

theorem mkProfile_positions (w : Wallet) (prof : AddressPoolProfile)
    (h : mkProfile w = some prof) : prof.positions = flatPositions w := by
  rw [mkProfile] at h
  cases hsb : w.sourceBalance with
  | none => rw [hsb] at h; exact absurd h (by simp)
  | some nets =>
    rw [hsb] at h
    by_cases he : (flatPositions w).isEmpty
    · rw [if_pos he] at h
      exact absurd h (by simp)
    · rw [if_neg he, Option.some.injEq] at h
      rw [← h]

theorem flatPositions_pos (w : Wallet) :
    ∀ p ∈ flatPositions w, jsLe p.regAmount (some 0) = false := by
  intro p hp
  rw [flatPositions] at hp
  cases hsb : w.sourceBalance with
  | none => rw [hsb] at hp; simp at hp
  | some nets =>
    rw [hsb] at hp
    rcases List.mem_flatMap.1 hp with ⟨nw, _, hp⟩
    cases hv : nw.2 with
    | none => rw [hv] at hp; simp at hp
    | some dexs =>
      rw [hv] at hp
      rcases List.mem_flatMap.1 hp with ⟨de, _, hp⟩
      cases hd : de.2 with
      | none => rw [hd] at hp; simp at hp
      | some ps =>
        rw [hd] at hp
        simp only [survivingOf] at hp
        rcases List.mem_filterMap.1 hp with ⟨rp, _, heq⟩
        by_cases hg : jsLe (resolveReg rp) (some 0) = true
        · rw [if_pos hg] at heq
          exact absurd heq (by simp)
        · rw [if_neg hg] at heq
          rw [Option.some.injEq] at heq
          rw [← heq]
          simpa using hg

/-- C4.  A position whose resolved amount is a number `<= 0` contributes
to no aggregate: removing all such positions changes neither
`poolAnalysis` (totals, counts, per-dex breakdowns, distinct-pool count)
nor `addressPoolProfiles`, and no such position ever appears in a
profile's flat position list. -/
theorem c4_nonpositive_filtered (bs : List Wallet) :
    poolAnalysis (bs.map dropNonPositive) = poolAnalysis bs ∧
    addressPoolProfiles (bs.map dropNonPositive) = addressPoolProfiles bs ∧
    (∀ w ∈ bs, ∀ prof, mkProfile w = some prof →
      ∀ p ∈ prof.positions, jsLe p.regAmount (some 0) = false) := by
  refine ⟨poolAnalysis_drop bs, addressPoolProfiles_drop bs, ?_⟩
  intro w _ prof hprof p hp
  rw [mkProfile_positions w prof hprof] at hp
  exact flatPositions_pos w p hp

/-- Wallet mixing surviving and non-surviving positions for the C4
witness: one positive position, one zero and one negative. -/
def exMixedWallet : Wallet :=
  ⟨"0x9", .num 400, .absent,
    some [("gnosis", some [("sushiswap",
      some [⟨.num 100, some "0xP1", some 1, some 2, some true⟩,
            ⟨.str "0", some "0xP2", none, none, none⟩,
            ⟨.num (-5), some "0xP3", none, none, none⟩])])]⟩

/-- Witness for C4 at a concrete mixed dataset. -/
theorem c4_nonpositive_filtered_witness :
    poolAnalysis ([exMixedWallet].map dropNonPositive) = poolAnalysis [exMixedWallet] ∧
    addressPoolProfiles ([exMixedWallet].map dropNonPositive)
        = addressPoolProfiles [exMixedWallet] ∧
    (∀ w ∈ [exMixedWallet], ∀ prof, mkProfile w = some prof →
      ∀ p ∈ prof.positions, jsLe p.regAmount (some 0) = false) :=
  c4_nonpositive_filtered [exMixedWallet]

theorem setInsert_nodup [DecidableEq β] (l : List β) (x : β) (h : l.Nodup) :
    (setInsert l x).Nodup := by
  rw [setInsert]
  split
  · exact h
  · rename_i hx
    simp [List.nodup_append, h, hx]

theorem setInsert_toFinset [DecidableEq β] (l : List β) (x : β) :
    (setInsert l x).toFinset = insert x l.toFinset := by
  rw [setInsert]
  split
  · rename_i hx
    rw [Finset.insert_eq_self.2 (List.mem_toFinset.2 hx)]
  · rw [List.toFinset_append]
    simp [Finset.union_comm, Finset.insert_eq]

theorem foldl_setInsert_nodup [DecidableEq β] :
    ∀ (l acc : List β), acc.Nodup → (l.foldl setInsert acc).Nodup
  | [], _, h => h
  | x :: l, acc, h =>
    foldl_setInsert_nodup l (setInsert acc x) (setInsert_nodup acc x h)

theorem foldl_setInsert_toFinset [DecidableEq β] :
    ∀ (l acc : List β), (l.foldl setInsert acc).toFinset = acc.toFinset ∪ l.toFinset
  | [], acc => by simp
  | x :: l, acc => by
    rw [List.foldl_cons, foldl_setInsert_toFinset l (setInsert acc x), setInsert_toFinset,
      List.toFinset_cons, Finset.insert_union, Finset.union_insert]

theorem foldl_setInsert_length [DecidableEq β] (l : List β) :
    (l.foldl setInsert ([] : List β)).length = l.toFinset.card := by
  have h1 : (l.foldl setInsert ([] : List β)).Nodup :=
    foldl_setInsert_nodup l [] (by simp)
  have h2 : (l.foldl setInsert ([] : List β)).toFinset = l.toFinset := by
    rw [foldl_setInsert_toFinset]
    simp
  rw [← h2, List.toFinset_card_of_nodup h1]

theorem apaPosStep_dexSet (st : APAState) (p : RawPos) :
    (apaPosStep st p).dexSet = st.dexSet := by
  simp only [apaPosStep]
  split
  · rfl
  · dsimp only
    split
    · split <;> rfl
    · rfl

theorem foldl_apaPosStep_dexSet :
    ∀ (ps : List RawPos) (st : APAState), (ps.foldl apaPosStep st).dexSet = st.dexSet
  | [], _ => rfl
  | p :: ps, st => by
    rw [List.foldl_cons, foldl_apaPosStep_dexSet ps (apaPosStep st p), apaPosStep_dexSet]

/-- Keys registered in the dex set by `analyzePoolPositions`: every
`(network, dex)` entry whose raw value is an array, whether or not any of
its positions survives the amount filter. -/
def arrayDexKeys (nets : List (String × Option DexMap)) : List String :=
  nets.flatMap fun nw =>
    match nw.2 with
    | none => []
    | some dexs => dexs.filterMap fun de => de.2.map fun _ => nw.1 ++ "-" ++ de.1

theorem foldl_apaDexStep_dexSet (net : String) :
    ∀ (dexs : DexMap) (st : APAState),
      (dexs.foldl (apaDexStep net) st).dexSet
        = (dexs.filterMap fun de => de.2.map fun _ => net ++ "-" ++ de.1).foldl
            setInsert st.dexSet
  | [], _ => rfl
  | de :: dexs, st => by
    rw [List.foldl_cons, foldl_apaDexStep_dexSet net dexs (apaDexStep net st de)]
    cases hd : de.2 with
    | none =>
      rw [show apaDexStep net st de = st by rw [apaDexStep, hd]]
      simp [hd]
    | some ps =>
      rw [show apaDexStep net st de
          = ps.foldl apaPosStep { st with dexSet := setInsert st.dexSet (net ++ "-" ++ de.1) }
        by rw [apaDexStep, hd]]
      rw [foldl_apaPosStep_dexSet]
      simp [hd]

theorem foldl_apaNetStep_dexSet :
    ∀ (nets : List (String × Option DexMap)) (st : APAState),
      (nets.foldl apaNetStep st).dexSet = (arrayDexKeys nets).foldl setInsert st.dexSet
  | [], _ => rfl
  | nw :: nets, st => by
    rw [List.foldl_cons, foldl_apaNetStep_dexSet nets (apaNetStep st nw),
      show arrayDexKeys (nw :: nets)
        = (match nw.2 with
           | none => []
           | some dexs => dexs.filterMap fun de => de.2.map fun _ => nw.1 ++ "-" ++ de.1)
          ++ arrayDexKeys nets from rfl,
      List.foldl_append]
    cases hv : nw.2 with
    | none =>
      rw [show apaNetStep st nw = st by rw [apaNetStep, hv]]
      simp
    | some dexs =>
      rw [show apaNetStep st nw = dexs.foldl (apaDexStep nw.1) st by rw [apaNetStep, hv],
        foldl_apaDexStep_dexSet]

theorem mkProfile_dexCount (w : Wallet) (prof : AddressPoolProfile)
    (h : mkProfile w = some prof) :
    prof.dexCount = ((flatPositions w).map fun p => p.network ++ "-" ++ p.dex).dedup.length := by
  rw [mkProfile] at h
  cases hsb : w.sourceBalance with
  | none => rw [hsb] at h; exact absurd h (by simp)
  | some nets =>
    rw [hsb] at h
    by_cases he : (flatPositions w).isEmpty
    · rw [if_pos he] at h
      exact absurd h (by simp)
    · rw [if_neg he, Option.some.injEq] at h
      rw [← h]

/-- C6 as amended: the per-address profile's distinct-exchange count is
the number of distinct `network-dex` key strings among its surviving
positions, while `analyzePoolPositions` counts the distinct key strings of
every array-valued `(network, dex)` entry, including entries none of whose
positions survives the amount filter. -/
theorem c6_amended_dex_count (w : Wallet) :
    (∀ prof, mkProfile w = some prof →
      prof.dexCount = (((flatPositions w).map fun p => p.network ++ "-" ++ p.dex).toFinset).card) ∧
    (∀ nets, w.sourceBalance = some nets →
      (analyzePoolPositions w).map PoolAnalysisOut.dexCount
        = some ((arrayDexKeys nets).toFinset.card)) := by
  constructor
  · intro prof h
    rw [mkProfile_dexCount w prof h, List.card_toFinset]
  · intro nets h
    rw [analyzePoolPositions, h]
    simp only [Option.map]
    rw [show (nets.foldl apaNetStep apaInit).dexSet.length
        = ((arrayDexKeys nets).foldl setInsert ([] : List String)).length
      by rw [foldl_apaNetStep_dexSet]; rfl]
    rw [foldl_setInsert_length]

/-- Wallet with a single dex entry whose only position is filtered out. -/
def exZeroWallet : Wallet :=
  ⟨"0x2", .num 5, .absent,
    some [("gnosis", some [("dexA", some [⟨.str "0", some "0xZ", none, none, none⟩])])]⟩

unseal Rat.mul Rat.add Rat.sub Rat.inv in
/-- Counterexample for C6: the wallet's only (network, exchange) pair has
no surviving position, yet `analyzePoolPositions` reports a distinct
exchange count of 1 (the per-address profile, in contrast, excludes the
wallet entirely). -/
theorem c6_counterexample :
    (analyzePoolPositions exZeroWallet).map PoolAnalysisOut.dexCount = some 1 ∧
    (analyzePoolPositions exZeroWallet).map PoolAnalysisOut.totalPools = some 0 ∧
    addressPoolProfiles [exZeroWallet] = [] := by
  decide

/-- Witness for the amended C6 at the same wallet. -/
theorem c6_amended_dex_count_witness :
    (analyzePoolPositions exZeroWallet).map PoolAnalysisOut.dexCount
      = some ((arrayDexKeys
          [("gnosis", some [("dexA", some [⟨.str "0", some "0xZ", none, none, none⟩])])]).toFinset.card) :=
  (c6_amended_dex_count exZeroWallet).2
    [("gnosis", some [("dexA", some [⟨.str "0", some "0xZ", none, none, none⟩])])] rfl

/-- Position amounts of every wallet of the dataset parse to actual
numbers (no NaN).  With a NaN amount the sort comparator of
`poolPowerCorrelation` is inconsistent and the engine's output order is
implementation defined, so the ordering claim is only meaningful on clean
data. -/
def cleanPositions (bs : List Wallet) : Prop :=
  ∀ w ∈ bs, ∀ p ∈ flatPositions w, (p.regAmount).isSome = true

theorem mkProfile_isSome_iff (w : Wallet) :
    (mkProfile w).isSome = true ↔ flatPositions w ≠ [] := by
  rw [mkProfile]
  cases hsb : w.sourceBalance with
  | none =>
    simp only [Option.isSome_none, Bool.false_eq_true, false_iff]
    intro hne
    apply hne
    rw [flatPositions, hsb]
  | some nets =>
    by_cases he : (flatPositions w).isEmpty
    · rw [if_pos he]
      simp only [Option.isSome_none, Bool.false_eq_true, false_iff]
      intro hne
      exact hne (List.isEmpty_iff.1 he)
    · rw [if_neg he]
      simp only [Option.isSome_some, true_iff]
      intro hnil
      exact he (by rw [hnil]; rfl)

theorem mem_addressPoolProfiles {bs : List Wallet} {prof : AddressPoolProfile} :
    prof ∈ addressPoolProfiles bs ↔ ∃ w ∈ bs, mkProfile w = some prof := by
  rw [addressPoolProfiles]
  by_cases h : bs.isEmpty
  · rw [if_pos h, List.isEmpty_iff.1 h]
    simp
  · rw [if_neg h]
    exact List.mem_filterMap

theorem mkProfile_poolLiq (w : Wallet) (prof : AddressPoolProfile)
    (h : mkProfile w = some prof) :
    prof.poolLiquidityREG
      = (flatPositions w).foldl (fun s p => jsAdd s p.regAmount) (some 0) := by
  rw [mkProfile] at h
  cases hsb : w.sourceBalance with
  | none => rw [hsb] at h; exact absurd h (by simp)
  | some nets =>
    rw [hsb] at h
    by_cases he : (flatPositions w).isEmpty
    · rw [if_pos he] at h
      exact absurd h (by simp)
    · rw [if_neg he, Option.some.injEq] at h
      rw [← h]

theorem foldl_jsAdd_pos :
    ∀ (l : List APos) (a : ℚ),
      (∀ p ∈ l, ∃ q, p.regAmount = some q ∧ 0 < q) →
      ∃ t, l.foldl (fun s p => jsAdd s p.regAmount) (some a) = some t ∧ a ≤ t ∧
        (l ≠ [] → a < t)
  | [], a, _ => ⟨a, rfl, le_refl a, fun h => absurd rfl h⟩
  | p :: l, a, hpos => by
    rcases hpos p (by simp) with ⟨q, hq, hq0⟩
    rcases foldl_jsAdd_pos l (a + q) (fun x hx => hpos x (by simp [hx])) with ⟨t, ht, hat, _⟩
    refine ⟨t, ?_, ?_, fun _ => ?_⟩
    · rw [List.foldl_cons, hq]
      exact ht
    · linarith
    · linarith

theorem pos_of_clean (w : Wallet)
    (hw : ∀ p ∈ flatPositions w, (p.regAmount).isSome = true) :
    ∀ p ∈ flatPositions w, ∃ q, p.regAmount = some q ∧ 0 < q := by
  intro p hp
  cases hq : p.regAmount with
  | none =>
    have := hw p hp
    rw [hq] at this
    simp at this
  | some q =>
    have hle := flatPositions_pos w p hp
    rw [hq] at hle
    simp only [jsLe, decide_eq_false_iff_not, not_le] at hle
    exact ⟨q, rfl, hle⟩

theorem powerValueFor_nil (a : String) : powerValueFor [] a = 0 :=
  rfl

theorem enrich_powerVoting (pv : List PowerEntry) (prof : AddressPoolProfile) :
    (enrichProfile pv prof).powerVoting = powerValueFor pv prof.address :=
  rfl

theorem mem_poolPowerCorrelation {bs : List Wallet} {pv : List PowerEntry} {c : Correlated} :
    c ∈ poolPowerCorrelation bs pv ↔
      (∃ prof ∈ addressPoolProfiles bs, c = enrichProfile pv prof) ∧ 0 < c.powerVoting := by
  rw [poolPowerCorrelation]
  by_cases hg : ((addressPoolProfiles bs).isEmpty || pv.isEmpty) = true
  · rw [if_pos hg]
    simp only [List.not_mem_nil, false_iff]
    rintro ⟨⟨prof, hprof, rfl⟩, hpow⟩
    rw [Bool.or_eq_true] at hg
    rcases hg with h | h
    · rw [List.isEmpty_iff.1 h] at hprof
      simp at hprof
    · rw [List.isEmpty_iff.1 h] at hpow
      rw [enrich_powerVoting, powerValueFor_nil] at hpow
      exact lt_irrefl 0 hpow
  · rw [if_neg hg, mem_jsSortBy, List.mem_filter, List.mem_map]
    constructor
    · rintro ⟨⟨prof, hprof, rfl⟩, hp⟩
      exact ⟨⟨prof, hprof, rfl⟩, by simpa using hp⟩
    · rintro ⟨⟨prof, hprof, rfl⟩, hp⟩
      exact ⟨⟨prof, hprof, rfl⟩, by simpa using hp⟩

theorem corrLe_some {a b : Correlated} {qa qb : ℚ}
    (ha : a.poolLiquidityREG = some qa) (hb : b.poolLiquidityREG = some qb) :
    corrLe a b = decide (qb - qa ≤ 0) := by
  rw [corrLe, ha, hb]
  rfl

/-- Conclusion of the C3 claim: membership, positivity and descending
order of the pool/power correlation view. -/
def correlationSpec (bs : List Wallet) (pv : List PowerEntry) : Prop :=
  (∀ c ∈ poolPowerCorrelation bs pv,
    c.positions ≠ [] ∧ 0 < c.powerVoting ∧ ∃ q, c.poolLiquidityREG = some q ∧ 0 < q) ∧
  (poolPowerCorrelation bs pv).Pairwise
    (fun a b => jsLe b.poolLiquidityREG a.poolLiquidityREG = true) ∧
  (∀ prof ∈ addressPoolProfiles bs,
    (enrichProfile pv prof ∈ poolPowerCorrelation bs pv ↔
      0 < powerValueFor pv prof.address)) ∧
  (∀ w ∈ bs, ((mkProfile w).isSome = true ↔ flatPositions w ≠ []))

/-- C3.  On a dataset whose position amounts all parse to numbers, the
correlation view contains exactly the wallets with at least one surviving
pool position and strictly positive voting power (such wallets
automatically have strictly positive pool liquidity), and its elements are
sorted in descending order of `poolLiquidityREG`. -/
theorem c3_pool_power_correlation (bs : List Wallet) (pv : List PowerEntry)
    (hclean : cleanPositions bs) : correlationSpec bs pv := by
  have hmemChar : ∀ c ∈ poolPowerCorrelation bs pv,
      ∃ w ∈ bs, ∃ prof, mkProfile w = some prof ∧ c = enrichProfile pv prof := by
    intro c hc
    rcases (mem_poolPowerCorrelation.1 hc).1 with ⟨prof, hprof, rfl⟩
    rcases mem_addressPoolProfiles.1 hprof with ⟨w, hw, hmk⟩
    exact ⟨w, hw, prof, hmk, rfl⟩
  have hliq : ∀ c ∈ poolPowerCorrelation bs pv,
      ∃ q, c.poolLiquidityREG = some q ∧ 0 < q := by
    intro c hc
    rcases hmemChar c hc with ⟨w, hw, prof, hmk, rfl⟩
    have hne : flatPositions w ≠ [] :=
      (mkProfile_isSome_iff w).1 (by rw [hmk]; rfl)
    rcases foldl_jsAdd_pos (flatPositions w) 0 (pos_of_clean w (hclean w hw)) with
      ⟨t, ht, _, hlt⟩
    refine ⟨t, ?_, hlt hne⟩
    show prof.poolLiquidityREG = some t
    rw [mkProfile_poolLiq w prof hmk]
    exact ht
  refine ⟨?_, ?_, ?_, fun w _ => mkProfile_isSome_iff w⟩
  · intro c hc
    refine ⟨?_, (mem_poolPowerCorrelation.1 hc).2, hliq c hc⟩
    rcases hmemChar c hc with ⟨w, hw, prof, hmk, rfl⟩
    have hne : flatPositions w ≠ [] :=
      (mkProfile_isSome_iff w).1 (by rw [hmk]; rfl)
    show prof.positions ≠ []
    rw [mkProfile_positions w prof hmk]
    exact hne
  · rw [poolPowerCorrelation]
    by_cases hg : ((addressPoolProfiles bs).isEmpty || pv.isEmpty) = true
    · rw [if_pos hg]
      exact List.Pairwise.nil
    · rw [if_neg hg]
      have hsome : ∀ a ∈ ((addressPoolProfiles bs).map (enrichProfile pv)).filter
            (fun c => decide (0 < c.powerVoting)),
          ∃ qa, a.poolLiquidityREG = some qa := by
        intro a ha
        have hmem : a ∈ poolPowerCorrelation bs pv := by
          rw [poolPowerCorrelation, if_neg hg, mem_jsSortBy]
          exact ha
        rcases hliq a hmem with ⟨q, hq, _⟩
        exact ⟨q, hq⟩
      have hpw := pairwise_jsSortBy corrLe
        (((addressPoolProfiles bs).map (enrichProfile pv)).filter
          (fun c => decide (0 < c.powerVoting)))
        (by
          intro a ha b hb
          rcases hsome a ha with ⟨qa, hqa⟩
          rcases hsome b hb with ⟨qb, hqb⟩
          rw [corrLe_some hqa hqb, corrLe_some hqb hqa]
          rcases le_total qb qa with h | h
          · left; simpa using by linarith
          · right; simpa using by linarith)
        (by
          intro a ha b hb c hc h1 h2
          rcases hsome a ha with ⟨qa, hqa⟩
          rcases hsome b hb with ⟨qb, hqb⟩
          rcases hsome c hc with ⟨qc, hqc⟩
          rw [corrLe_some hqa hqb] at h1
          rw [corrLe_some hqb hqc] at h2
          rw [corrLe_some hqa hqc]
          simp only [decide_eq_true_eq] at h1 h2 ⊢
          linarith)
      refine hpw.imp_of_mem ?_
      intro a b ha hb hab
      rcases hsome a (mem_jsSortBy.1 ha) with ⟨qa, hqa⟩
      rcases hsome b (mem_jsSortBy.1 hb) with ⟨qb, hqb⟩
      rw [corrLe_some hqa hqb] at hab
      rw [hqa, hqb]
      simp only [jsLe, decide_eq_true_eq] at hab ⊢
      linarith
  · intro prof hprof
    constructor
    · intro hmem
      have := (mem_poolPowerCorrelation.1 hmem).2
      rwa [enrich_powerVoting] at this
    · intro hpow
      rw [mem_poolPowerCorrelation]
      exact ⟨⟨prof, hprof, rfl⟩, by rwa [enrich_powerVoting]⟩

unseal Rat.mul Rat.add Rat.sub Rat.inv in
/-- Witness for C3 at a concrete dataset with two surviving positions. -/
theorem c3_pool_power_correlation_witness :
    cleanPositions [exPoolWallet] ∧ correlationSpec [exPoolWallet] exPower :=
  have h : cleanPositions [exPoolWallet] := by unfold cleanPositions; decide
  ⟨h, c3_pool_power_correlation [exPoolWallet] exPower h⟩

/-- Conclusion of the amended C7 claim: the search result is a
permutation of one entry for the current snapshot plus exactly one entry
per historical snapshot; a snapshot whose load failed yields a
`found = false` entry for its date without disturbing the others. -/
def searchSpec (bs : List Wallet) (pv : List PowerEntry) (rawAddr : String)
    (snaps : List SnapshotFetch) : Prop :=
  (searchAddressAcrossSnapshots bs pv rawAddr snaps).Perm
      (currentEntry bs pv (lcString (trimStr rawAddr))
        :: snaps.map (histEntry (lcString (trimStr rawAddr)))) ∧
  (searchAddressAcrossSnapshots bs pv rawAddr snaps).length = snaps.length + 1 ∧
  (∀ d err, (d, Except.error err) ∈ snaps →
    histEntry (lcString (trimStr rawAddr)) (d, Except.error err)
        ∈ searchAddressAcrossSnapshots bs pv rawAddr snaps ∧
      (histEntry (lcString (trimStr rawAddr)) (d, Except.error err)).found = false) ∧
  (∀ d docs, (d, Except.ok docs) ∈ snaps →
    histEntry (lcString (trimStr rawAddr)) (d, Except.ok docs)
      ∈ searchAddressAcrossSnapshots bs pv rawAddr snaps)

/-- C7 as amended: with a non-empty search address the result always has
one entry per historical snapshot plus one for the current snapshot (so 4
entries for 3 historical snapshots, not 3); each failing snapshot is
recorded as a not-found entry for its date and each successful snapshot
contributes its looked-up entry. -/
theorem c7_amended_search (bs : List Wallet) (pv : List PowerEntry) (rawAddr : String)
    (snaps : List SnapshotFetch) (h : trimStr rawAddr ≠ "") :
    searchSpec bs pv rawAddr snaps := by
  have hres : searchAddressAcrossSnapshots bs pv rawAddr snaps
      = jsSortBy searchLe
          (currentEntry bs pv (lcString (trimStr rawAddr))
            :: snaps.map (histEntry (lcString (trimStr rawAddr)))) := by
    rw [searchAddressAcrossSnapshots]
    simp [h]
  refine ⟨?_, ?_, ?_, ?_⟩
  · rw [hres]
    exact jsSortBy_perm _ _
  · rw [hres, (jsSortBy_perm _ _).length_eq]
    simp
  · intro d err hmem
    refine ⟨?_, rfl⟩
    rw [hres, mem_jsSortBy]
    exact List.mem_cons_of_mem _ (List.mem_map_of_mem _ hmem)
  · intro d docs hmem
    rw [hres, mem_jsSortBy]
    exact List.mem_cons_of_mem _ (List.mem_map_of_mem _ hmem)

/-- Current dataset used in the C7 scenario. -/
def exCurrentBs : List Wallet := [⟨"0xA", .num 10, .absent, none⟩]

/-- Current voting power list used in the C7 scenario. -/
def exCurrentPv : List PowerEntry := [⟨some "0xA", .num 5⟩]

/-- Three historical snapshots of which the middle one fails to load. -/
def exSnaps : List SnapshotFetch :=
  [("02-01-2025", .ok (.bare [⟨"0xA", .num 10, .absent, none⟩], .bare [⟨some "0xA", .num 5⟩])),
   ("01-01-2025", .error ()),
   ("03-01-2025", .ok (.bare [⟨"0xA", .num 10, .absent, none⟩], .bare []))]

/-- Counterexample for C7: with three historical snapshots (one failing)
the result set has 4 entries, not 3 — the current snapshot always
contributes an extra entry; the failing date is marked not-found and the
other dates are found. -/
theorem c7_counterexample :
    (searchAddressAcrossSnapshots exCurrentBs exCurrentPv "0xA" exSnaps).length = 4 ∧
    (searchAddressAcrossSnapshots exCurrentBs exCurrentPv "0xA" exSnaps).length ≠ 3 ∧
    ((searchAddressAcrossSnapshots exCurrentBs exCurrentPv "0xA" exSnaps).map
        fun e => (e.date, e.found))
      = [("Actuel", true), ("03-01-2025", true), ("02-01-2025", true),
         ("01-01-2025", false)] := by
  decide

/-- Witness for the amended C7 at the same scenario. -/
theorem c7_amended_search_witness :
    trimStr "0xA" ≠ "" ∧ searchSpec exCurrentBs exCurrentPv "0xA" exSnaps :=
  ⟨by decide, c7_amended_search exCurrentBs exCurrentPv "0xA" exSnaps (by decide)⟩

end PVD
